import Mathlib

/-!
Shallow embedding of the purchase-pattern mining and recommendation engine of
the Smart Grocery Shopping Assistant.

The embedding covers:

* `backend/src/engines/smart_rule_engine.py` — the `SmartRuleEngine` class:
  market-basket association mining, repurchase-interval prediction, seasonal
  preference learning, category preference learning, suggestion generation,
  deduplication, ranking and truncation.
* `SmartGroceryAssistant/src/models/shopping_list.py` — `ShoppingList.find_item`.
* `SmartGroceryAssistant/src/models/purchase_history.py` —
  `PurchaseHistory.get_purchase_frequency` and `should_suggest_item`.
* `SmartGroceryAssistant/backend/src/models/grocery_item.py` — the
  name/category normalization performed by `GroceryItem.__post_init__`.

Modelling conventions:

* Python floats are modelled by exact rationals (`ℚ`); `np.std`, the only
  irrational quantity, is modelled over `ℝ` in a dedicated definition.
  The one place where IEEE semantics differs from exact arithmetic — the
  unguarded division `days_since_last / avg_interval` when the average is
  zero — is mirrored explicitly in `nextProb` and discussed there.
* `datetime` values are modelled at day granularity (`PDate`): an integer day
  number (used for basket grouping and day gaps) plus the calendar month
  (used by the seasonal learner).
* Python dicts are modelled as association lists: assignment `d[k] = v`
  overwrites the first binding in place or appends (`dinsert`), lookup takes
  the first binding (`List.lookup`).  Iteration order of intermediate
  `defaultdict`s may differ from CPython's insertion order; all theorems
  below are stated either for arbitrary engine states or at the level of
  per-key lookups, which are order-independent.
* The sklearn KMeans clusterer cannot be embedded; the freshly computed
  clustering is a parameter (`nc`) of `learn`, universally quantified in the
  theorems.
* Suggestion dictionaries are modelled by their `name`, `category`,
  `confidence` and `rule_type` entries; the human-readable `reason` strings
  and the `ai_insights` sub-dictionaries are not consumed by any claim and
  are omitted.
-/

namespace GroceryEngine

/-! ## String primitives -/

/-- Python `str.lower()` on the ASCII range, as used for item names
(`Char.toLower` lowercases `A`..`Z` and leaves everything else alone). -/
def pyLower (s : String) : String := String.mk (s.data.map Char.toLower)

/-- Removal of leading and trailing whitespace from a character list. -/
def stripChars (l : List Char) : List Char :=
  ((l.dropWhile Char.isWhitespace).reverse.dropWhile Char.isWhitespace).reverse

/-- Python `str.strip()` with no argument. -/
def pyStrip (s : String) : String := String.mk (stripChars s.data)

/-- The normalization `name.lower().strip()` used by `ShoppingList.find_item`
and by `_deduplicate_suggestions`. -/
def pyNorm (s : String) : String := pyStrip (pyLower s)

/-- Helper for `pyTitle`: the boolean records whether the previous character
was alphabetic. -/
def titleChars : Bool → List Char → List Char
  | _, [] => []
  | prev, c :: rest =>
    (if c.isAlpha then (if prev then c.toLower else c.toUpper) else c)
      :: titleChars c.isAlpha rest

/-- Python `str.title()` (ASCII): the first letter of every alphabetic run is
uppercased, the rest lowercased. -/
def pyTitle (s : String) : String := String.mk (titleChars false s.data)

/-- Python substring test `needle in hay`. -/
def strContains (hay needle : String) : Bool :=
  hay.data.tails.any (fun t => needle.data.isPrefixOf t)

/-! ## Dates, items, shopping list -/

/-- A `datetime` at day granularity: the day number drives basket grouping
and day gaps, the calendar month drives the seasonal learner. -/
structure PDate where
  day : Int
  month : Nat
deriving DecidableEq

/-- A purchase record (`GroceryItem` as consumed by the engines).  Fields not
consumed by any claim (quantity, unit, price, organic flag, expiration) are
omitted. -/
structure GItem where
  name : String
  category : String
  pdate : PDate
deriving DecidableEq

/-- The constructor normalization: `GroceryItem.__post_init__` lowercases and strips the name and category of
every constructed item; histories and shopping lists built by the application
only ever contain items of this shape. -/
def mkGroceryItem (name category : String) (d : PDate) : GItem :=
  ⟨pyNorm name, pyNorm category, d⟩

/-- An entry of `ShoppingList._items`, restricted to the fields the engines
read. -/
structure SLItem where
  name : String
  category : String
deriving DecidableEq

abbrev ShoppingList := List SLItem

/-- The lookup `ShoppingList.find_item(name)` as called by the engines (no category
argument): normalize the query, return the first item whose stored name is
exactly equal to it. -/
def find_item (sl : ShoppingList) (q : String) : Option SLItem :=
  sl.find? (fun it => it.name == pyNorm q)

/-! ## Association-list dictionaries -/

/-- Python dict assignment `d[k] = v`: overwrite the first binding of `k` in
place, else append at the end. -/
def dinsert {K V : Type} [DecidableEq K] (k : K) (v : V) : List (K × V) → List (K × V)
  | [] => [(k, v)]
  | e :: rest => if e.1 = k then (k, v) :: rest else e :: dinsert k v rest

/-- A loop of the form `for k in keys: if c(k): d[k] = v(k)` over a prior
dictionary `prev`.  Bindings whose key is not rebound survive untouched. -/
def updateKeys {K V : Type} [DecidableEq K] (c : K → Bool) (v : K → V)
    (keys : List K) (prev : List (K × V)) : List (K × V) :=
  keys.foldl (fun d k => if c k then dinsert k (v k) d else d) prev

/-- First-occurrence deduplication (the key set of a `defaultdict` built by a
single pass, in insertion order). -/
def firstDedupAux {α : Type} [DecidableEq α] (seen : List α) : List α → List α
  | [] => []
  | a :: rest =>
    if a ∈ seen then firstDedupAux seen rest else a :: firstDedupAux (a :: seen) rest

/-- Distinct elements of a list, keeping first occurrences in order. -/
def firstDedup {α : Type} [DecidableEq α] (l : List α) : List α := firstDedupAux [] l

/-! ## Association rule miner (`_learn_item_associations`) -/

/-- The baskets: `all_purchases` grouped by purchase date (same day = same
basket), each basket holding the lowercased names in history order. -/
def basketsOf (hist : List GItem) : List (List String) :=
  (firstDedup (hist.map (fun it => it.pdate.day))).map
    (fun d => (hist.filter (fun it => it.pdate.day == d)).map (fun it => pyLower it.name))

/-- Contribution of one inner-loop step pairing `a` (at index `i`) with `b`
(at some index `j > i`) to the co-occurrence counter entry `(x, y)`: the loop
body increments both `cooc[a][b]` and `cooc[b][a]`. -/
def coocPair (x y a b : String) : Nat :=
  (if a = x ∧ b = y then 1 else 0) + (if b = x ∧ a = y then 1 else 0)

/-- Increments received by the co-occurrence entry `(x, y)` from one basket:
the code pairs `basket[i]` with `basket[j]` for every `i < j`. -/
def coocBasket (x y : String) : List String → Nat
  | [] => 0
  | a :: rest => (rest.map (fun b => coocPair x y a b)).sum + coocBasket x y rest

/-- The counter `item_cooccurrence[x][y]` after the counting loops. -/
def coocOf (bs : List (List String)) (x y : String) : Nat :=
  (bs.map (coocBasket x y)).sum

/-- The counter `item_counts[x]`: occurrences of `x` across all baskets, with
multiplicity (the code counts over the basket lists, not sets). -/
def itemCountOf (bs : List (List String)) (x : String) : Nat :=
  bs.flatten.count x

/-- The statistics dictionary stored for a retained association `A → B`. -/
structure AssocStats where
  confidence : ℚ
  support : Nat
  lift : ℚ
deriving DecidableEq

/-- The inner dictionary `item_associations[a]` computed from the baskets:
partners `b` with co-occurrence count at least `min_support = 2` whose
confidence `count / item_counts[a]` exceeds `0.3`, mapped to
`{confidence, support, lift}` with
`lift = confidence / (item_counts[b] / total_baskets)`. -/
def innerAssoc (bs : List (List String)) (a : String) : List (String × AssocStats) :=
  (firstDedup bs.flatten).filterMap (fun b =>
    if 2 ≤ coocOf bs a b ∧ (3/10 : ℚ) < (coocOf bs a b : ℚ) / (itemCountOf bs a : ℚ) then
      some (b, ⟨(coocOf bs a b : ℚ) / (itemCountOf bs a : ℚ), coocOf bs a b,
        ((coocOf bs a b : ℚ) / (itemCountOf bs a : ℚ))
          / ((itemCountOf bs b : ℚ) / (bs.length : ℚ))⟩)
    else none)

/-- Whether `a` is a key of `item_cooccurrence`, i.e. was ever paired:
some basket of length at least 2 contains it. -/
def hasPairPartner (bs : List (List String)) (a : String) : Bool :=
  bs.any (fun b => b.contains a && decide (2 ≤ b.length))

/-- The association learner `_learn_item_associations`: for every paired item with at least
`min_support = 2` occurrences, the binding `item_associations[a]` is replaced
wholesale by the freshly computed inner dictionary; all other bindings of the
prior dictionary survive. -/
def learnAssociations (prev : List (String × List (String × AssocStats)))
    (bs : List (List String)) : List (String × List (String × AssocStats)) :=
  updateKeys (fun a => hasPairPartner bs a && decide (2 ≤ itemCountOf bs a))
    (fun a => innerAssoc bs a) (firstDedup bs.flatten) prev

/-! ## Seasonal learner (`_learn_seasonal_patterns`) -/

/-- The months occurring in the history. -/
def monthsOf (hist : List GItem) : List Nat :=
  firstDedup (hist.map (fun it => it.pdate.month))

/-- Lowercased names of the purchases made in month `m`, with multiplicity. -/
def monthItems (hist : List GItem) (m : Nat) : List String :=
  (hist.filter (fun it => it.pdate.month == m)).map (fun it => pyLower it.name)

/-- The inner dictionary `seasonal_patterns[str(m)]`: items whose share of the
month's purchases exceeds `0.1`. -/
def innerSeasonal (hist : List GItem) (m : Nat) : List (String × ℚ) :=
  (firstDedup (monthItems hist m)).filterMap (fun n =>
    if (1/10 : ℚ) < ((monthItems hist m).count n : ℚ) / ((monthItems hist m).length : ℚ) then
      some (n, ((monthItems hist m).count n : ℚ) / ((monthItems hist m).length : ℚ))
    else none)

/-- The seasonal learner `_learn_seasonal_patterns`: months present in the snapshot are rebound to
their freshly computed profiles; stale months survive. -/
def learnSeasonal (prev : List (Nat × List (String × ℚ))) (hist : List GItem) :
    List (Nat × List (String × ℚ)) :=
  updateKeys (fun m => decide (0 < (monthItems hist m).length))
    (innerSeasonal hist) (monthsOf hist) prev

/-! ## Category preference learner (`_learn_category_preferences`) -/

/-- The recency weight `1.0 / (1.0 + days_ago * 0.01)` of one purchase. -/
def recencyWeight (now : PDate) (it : GItem) : ℚ :=
  1 / (1 + ((now.day - it.pdate.day : Int) : ℚ) * (1/100))

/-- Sum of recency weights over the whole history. -/
def totalWeight (hist : List GItem) (now : PDate) : ℚ :=
  (hist.map (recencyWeight now)).sum

/-- Sum of recency weights of the purchases in category `c`. -/
def catWeight (hist : List GItem) (now : PDate) (c : String) : ℚ :=
  ((hist.filter (fun it => it.category == c)).map (recencyWeight now)).sum

/-- The categories occurring in the history (not lowercased by this learner). -/
def catsOf (hist : List GItem) : List String :=
  firstDedup (hist.map (fun it => it.category))

/-- The category learner `_learn_category_preferences`: normalized recency-weighted shares. -/
def learnCategoryPrefs (prev : List (String × ℚ)) (hist : List GItem) (now : PDate) :
    List (String × ℚ) :=
  if 0 < totalWeight hist now then
    updateKeys (fun _ => true) (fun c => catWeight hist now c / totalWeight hist now)
      (catsOf hist) prev
  else prev

/-! ## Repurchase interval predictor (`_learn_purchase_patterns`) -/

/-- Insert into an ascending list of day numbers. -/
def insertAsc (x : Int) : List Int → List Int
  | [] => [x]
  | y :: rest => if x ≤ y then x :: y :: rest else y :: insertAsc x rest

/-- Python `dates.sort()`: ascending insertion sort of the purchase days. -/
def sortAsc (l : List Int) : List Int := l.foldr insertAsc []

/-- Day gaps between consecutive entries of a (sorted) list of days. -/
def gapsOf : List Int → List Int
  | a :: b :: rest => (b - a) :: gapsOf (b :: rest)
  | _ => []

/-- The mean `np.mean` over a list of integer gaps, as an exact rational. -/
def meanQ (l : List Int) : ℚ := ((l.map (fun x => (x : ℚ))).sum) / (l.length : ℚ)

/-- The probability assignment `max(0, min(1, days_since_last / avg_interval))`.
The average is a numpy float; the code divides by it without a zero guard.
When it is zero the quotient is `inf` (or `nan` for a zero numerator), and
the `min`/`max` clamp maps that to `1` for a nonnegative numerator and `0`
for a negative one, because Python's binary `min`/`max` keep their first
argument when the comparison is false.  We mirror that outcome explicitly;
the exact-arithmetic branch is taken whenever `avg ≠ 0`. -/
def nextProb (daysSince : Int) (avg : ℚ) : ℚ :=
  if avg = 0 then (if daysSince < 0 then 0 else 1)
  else max 0 (min 1 ((daysSince : Int) / avg : ℚ))

/-- The entry stored in `purchase_patterns[item]`.  The `std_interval`
component (a float square root) is modelled separately by `stdIntervalOf`
so that the rest of the engine state stays computable; the reason string is
not modelled. -/
structure PatternStats where
  avg_interval : ℚ
  next_purchase_probability : ℚ
  purchase_count : Nat
  last_purchase : Int
deriving DecidableEq

/-- The pattern computed for one item from its purchase days. -/
def mkPattern (dates : List Int) (now : Int) : PatternStats :=
  let sorted := sortAsc dates
  let gaps := gapsOf sorted
  let avg := meanQ gaps
  let last := sorted.getLastD 0
  ⟨avg, nextProb (now - last) avg, dates.length, last⟩

/-- The distinct lowercased item names of the history, in first-occurrence
order (the keys of `item_purchases`). -/
def namesOf (hist : List GItem) : List String :=
  firstDedup (hist.map (fun it => pyLower it.name))

/-- The purchase days recorded under the lowercased name `n`. -/
def datesOf (hist : List GItem) (n : String) : List Int :=
  (hist.filter (fun it => pyLower it.name == n)).map (fun it => it.pdate.day)

/-- The repurchase learner `_learn_purchase_patterns`: items with at least two purchases are rebound
to their freshly computed pattern; stale bindings survive. -/
def learnPatterns (prev : List (String × PatternStats)) (hist : List GItem)
    (now : PDate) : List (String × PatternStats) :=
  updateKeys (fun n => decide (1 < (datesOf hist n).length))
    (fun n => mkPattern (datesOf hist n) now.day) (namesOf hist) prev

/-- Population variance of a list of gaps (what `np.std` squares to). -/
def popVar (l : List Int) : ℚ :=
  ((l.map (fun g => ((g : ℚ) - meanQ l) ^ 2)).sum) / (l.length : ℚ)

/-- The `std_interval` component stored alongside `purchase_patterns[n]`:
`np.std(intervals)` — the population standard deviation — when there is more
than one gap, and the fallback `avg_interval * 0.2` when there is exactly
one; `none` when the item gets no pattern (fewer than two purchases). -/
noncomputable def stdIntervalOf (hist : List GItem) (n : String) : Option ℝ :=
  let dates := sortAsc (datesOf hist n)
  if 1 < dates.length then
    let gaps := gapsOf dates
    some (if 1 < gaps.length then Real.sqrt (popVar gaps) else ((meanQ gaps : ℚ) : ℝ) * (2/10))
  else none

/-! ## Engine state and the learning pass -/

/-- The mutable learned state of `SmartRuleEngine` (the `user_preferences`
dictionary is never read by any suggestion path and is omitted). -/
structure EngineState where
  purchase_patterns : List (String × PatternStats)
  item_associations : List (String × List (String × AssocStats))
  seasonal_patterns : List (Nat × List (String × ℚ))
  category_preferences : List (String × ℚ)
  item_clusters : List (Nat × List String)

/-- The learning pass `learn_from_purchase_history`.  With an empty history the method returns
immediately.  The clusterer runs sklearn TF-IDF + KMeans, which cannot be
embedded: the freshly computed clustering is the parameter `nc` (with `none`
standing for the exception path that sets `item_clusters = None`, modelled as
the empty dictionary); with fewer than 3 distinct items the clusterer
returns early and the previous clusters survive.  All theorems below
quantify over `nc`. -/
def learn (st : EngineState) (hist : List GItem) (now : PDate)
    (nc : Option (List (Nat × List String))) : EngineState :=
  if hist.isEmpty then st
  else
    { purchase_patterns := learnPatterns st.purchase_patterns hist now
      item_associations := learnAssociations st.item_associations (basketsOf hist)
      seasonal_patterns := learnSeasonal st.seasonal_patterns hist
      category_preferences := learnCategoryPrefs st.category_preferences hist now
      item_clusters :=
        if (namesOf hist).length < 3 then st.item_clusters else nc.getD [] }

/-! ## Suggestion generators (`_get_smart_*_suggestions`) -/

/-- A suggestion dictionary, restricted to the entries consumed by the
claims: `name`, `category`, `confidence` and `rule_type`. -/
structure Suggestion where
  name : String
  category : String
  confidence : ℚ
  rule_type : String
deriving DecidableEq

/-- The keyword table of `_guess_category`, in source order. -/
def categoryKeywords : List (String × List String) :=
  [ ("dairy", ["milk", "cheese", "yogurt", "butter", "cream"]),
    ("fruits", ["apple", "banana", "orange", "berry", "grape", "lemon", "peach"]),
    ("vegetables", ["tomato", "onion", "carrot", "potato", "lettuce", "spinach", "broccoli"]),
    ("protein", ["chicken", "beef", "fish", "egg", "bean", "tofu"]),
    ("grains", ["bread", "rice", "pasta", "oat", "cereal"]),
    ("beverages", ["juice", "soda", "tea", "coffee", "water"]),
    ("condiments", ["sauce", "dressing", "spice", "salt", "pepper", "oil"]),
    ("snacks", ["chip", "cookie", "cracker", "nut"]) ]

/-- The helper `SmartRuleEngine._guess_category`: first category preference key occurring
as a substring of the lowercased item name, else the first keyword-table
category with a matching keyword, else `other`. -/
def guessCategory (prefs : List (String × ℚ)) (itemName : String) : String :=
  let n := pyLower itemName
  match prefs.find? (fun p => strContains n (pyLower p.1)) with
  | some p => p.1
  | none =>
    match categoryKeywords.find? (fun ck => ck.2.any (fun kw => strContains n kw)) with
    | some ck => ck.1
    | none => "other"

/-- Generator 1, `_get_smart_pattern_suggestions`: items of `purchase_patterns` not already
in the shopping list whose next-purchase probability exceeds `0.7`, looked up
in the history for their details (`recent_items[-1]`); confidence
`min(0.95, probability * 0.9)`. -/
def patternSuggs (st : EngineState) (sl : ShoppingList) (hist : List GItem) :
    List Suggestion :=
  st.purchase_patterns.filterMap (fun e =>
    if (find_item sl e.1).isSome then none
    else if (7/10 : ℚ) < e.2.next_purchase_probability then
      match (hist.filter (fun it => pyLower it.name == e.1)).getLast? with
      | some r =>
        some ⟨r.name, r.category,
          min (19/20) (e.2.next_purchase_probability * (9/10)), "smart_pattern"⟩
      | none => none
    else none)

/-- Generator 2, `_get_smart_association_suggestions`: for every shopping-list item,
partners of its learned association entry not already in the list with
`confidence * lift > 0.4`; confidence `min(0.85, score * 0.8)`. -/
def assocSuggs (st : EngineState) (sl : ShoppingList) : List Suggestion :=
  sl.flatMap (fun it =>
    match List.lookup (pyLower it.name) st.item_associations with
    | none => []
    | some inner =>
      inner.filterMap (fun p =>
        if (find_item sl p.1).isSome then none
        else if (2/5 : ℚ) < p.2.confidence * p.2.lift then
          some ⟨pyTitle p.1, guessCategory st.category_preferences p.1,
            min (17/20) (p.2.confidence * p.2.lift * (4/5)), "smart_association"⟩
        else none))

/-- Generator 3, `_get_smart_seasonal_suggestions`: entries of the current month's seasonal
profile not already in the list with score above `0.2`; confidence
`min(0.7, score * 0.8)`. -/
def seasonalSuggs (st : EngineState) (sl : ShoppingList) (month : Nat) :
    List Suggestion :=
  match List.lookup month st.seasonal_patterns with
  | none => []
  | some inner =>
    inner.filterMap (fun p =>
      if (find_item sl p.1).isSome then none
      else if (1/5 : ℚ) < p.2 then
        some ⟨pyTitle p.1, guessCategory st.category_preferences p.1,
          min (7/10) (p.2 * (4/5)), "smart_seasonal"⟩
      else none)

/-- Generator 4, `_get_smart_category_suggestions`: preferred categories absent from the
current list with preference above `0.1`, proposed as a placeholder item;
confidence `min(0.6, preference * 0.7)`. -/
def categorySuggs (st : EngineState) (sl : ShoppingList) : List Suggestion :=
  st.category_preferences.filterMap (fun p =>
    if sl.any (fun it => it.category == p.1) then none
    else if (1/10 : ℚ) < p.2 then
      some ⟨"Popular " ++ p.1 ++ " item", p.1, min (3/5) (p.2 * (7/10)), "smart_category"⟩
    else none)

/-- Generator 5, `_get_cluster_suggestions`: the first two members of every cluster that
contains some shopping-list item, skipping items already in the list;
fixed confidence `0.5`. -/
def clusterSuggs (st : EngineState) (sl : ShoppingList) : List Suggestion :=
  st.item_clusters.flatMap (fun e =>
    if sl.any (fun it => (pyLower it.name) ∈ e.2) then
      (e.2.take 2).filterMap (fun n =>
        if (find_item sl n).isSome then none
        else some ⟨pyTitle n, guessCategory st.category_preferences n, 1/2,
          "cluster_similarity"⟩)
    else [])

/-! ## Deduplication, ranking, truncation -/

/-- The filter `_deduplicate_suggestions`: walk the merged list, keeping a suggestion
only if its normalized name was not seen before and does not find an item in
the shopping list. -/
def dedupSuggs (sl : ShoppingList) : List Suggestion → List String → List Suggestion
  | [], _ => []
  | s :: rest, seen =>
    let n := pyNorm s.name
    if n ∈ seen then dedupSuggs sl rest seen
    else if (find_item sl n).isSome then dedupSuggs sl rest seen
    else s :: dedupSuggs sl rest (n :: seen)

/-- Stable insertion keeping the list sorted by descending confidence: the
new element goes before the first strictly smaller confidence, after equal
ones it follows.  Composed over the list this is exactly the result of
Python's stable `sort(key=confidence, reverse=True)`. -/
def insertByConf (s : Suggestion) : List Suggestion → List Suggestion
  | [] => [s]
  | t :: rest =>
    if t.confidence ≤ s.confidence then s :: t :: rest else t :: insertByConf s rest

/-- Stable sort by descending confidence. -/
def sortByConf (l : List Suggestion) : List Suggestion := l.foldr insertByConf []

/-- The entry point `generate_smart_suggestions`: learn from the latest history, run the five
generators in order, deduplicate against the shopping list, sort by
descending confidence, return the top 15. -/
def generate_smart_suggestions (st : EngineState) (sl : ShoppingList)
    (hist : List GItem) (now : PDate) (nc : Option (List (Nat × List String))) :
    List Suggestion :=
  let st1 := learn st hist now nc
  let all := patternSuggs st1 sl hist ++ assocSuggs st1 sl
    ++ seasonalSuggs st1 sl now.month ++ categorySuggs st1 sl ++ clusterSuggs st1 sl
  (sortByConf (dedupSuggs sl all [])).take 15

/-! ## `PurchaseHistory` pattern analysis (`SmartGroceryAssistant` model) -/

/-- The purchases matching a query in `get_purchase_frequency`: stored names
(normalized at construction) equal to the normalized query. -/
def purchasesOf (purchases : List GItem) (q : String) : List GItem :=
  purchases.filter (fun it => it.name == pyNorm q)

/-- The predicate `PurchaseHistory.should_suggest_item(item_name, threshold_days)`,
returning only the boolean (the reason strings are not consumed by any
claim).  Never purchased: `False`.  Exactly one purchase: suggest iff at
least 14 days have passed.  Multiple purchases: predict
`last + mean(gaps)` and suggest iff `(predicted - now).days` lies within
`±threshold`; `timedelta.days` floors, which `Int.floor` mirrors. -/
def should_suggest_item (purchases : List GItem) (q : String) (now : PDate)
    (threshold : Int) : Bool :=
  let ips := purchasesOf purchases q
  if ips.length = 0 then false
  else
    let sorted := sortAsc (ips.map (fun it => it.pdate.day))
    let last := sorted.getLastD 0
    if ips.length = 1 then decide (14 ≤ now.day - last)
    else
      let avg := meanQ (gapsOf sorted)
      if 0 < avg then
        let daysUntil : Int := Int.floor ((last : ℚ) + avg - (now.day : ℚ))
        decide (-threshold ≤ daysUntil ∧ daysUntil ≤ threshold)
      else false

/-! ## Dictionary lemmas -/

theorem lookup_dinsert_self {K V : Type} [DecidableEq K] [BEq K] [LawfulBEq K]
    (k : K) (v : V) (d : List (K × V)) : List.lookup k (dinsert k v d) = some v := by
  induction d with
  | nil => simp [dinsert, List.lookup]
  | cons e rest ih =>
    obtain ⟨k', v'⟩ := e
    by_cases h : k' = k
    · subst h
      simp [dinsert, List.lookup]
    · simp only [dinsert, if_neg h, List.lookup]
      rw [beq_false_of_ne (fun hk => h hk.symm)]
      exact ih

theorem lookup_dinsert_ne {K V : Type} [DecidableEq K] [BEq K] [LawfulBEq K]
    (x k : K) (v : V) (d : List (K × V)) (hne : x ≠ k) :
    List.lookup x (dinsert k v d) = List.lookup x d := by
  induction d with
  | nil => simp [dinsert, List.lookup, beq_false_of_ne hne]
  | cons e rest ih =>
    obtain ⟨k', v'⟩ := e
    by_cases h : k' = k
    · subst h
      simp only [dinsert, if_pos rfl, List.lookup]
      rw [beq_false_of_ne hne]
    · simp only [dinsert, if_neg h, List.lookup]
      cases hx : x == k' with
      | true => rfl
      | false => exact ih

theorem mem_dinsert {K V : Type} [DecidableEq K] (e : K × V) (k : K) (v : V)
    (d : List (K × V)) (h : e ∈ dinsert k v d) : e = (k, v) ∨ e ∈ d := by
  induction d with
  | nil =>
    rw [dinsert] at h
    exact Or.inl (List.mem_singleton.mp h)
  | cons e' rest ih =>
    by_cases h' : e'.1 = k
    · rw [dinsert, if_pos h'] at h
      rcases List.mem_cons.mp h with h | h
      · exact Or.inl h
      · exact Or.inr (List.mem_cons_of_mem _ h)
    · rw [dinsert, if_neg h'] at h
      rcases List.mem_cons.mp h with h | h
      · exact Or.inr (h ▸ List.mem_cons_self _ _)
      · rcases ih h with h | h
        · exact Or.inl h
        · exact Or.inr (List.mem_cons_of_mem _ h)

theorem lookup_updateKeys {K V : Type} [DecidableEq K] [BEq K] [LawfulBEq K]
    (c : K → Bool) (v : K → V) (keys : List K) (prev : List (K × V)) (x : K)
    (hnd : keys.Nodup) :
    List.lookup x (updateKeys c v keys prev) =
      if x ∈ keys ∧ c x then some (v x) else List.lookup x prev := by
  induction keys generalizing prev with
  | nil => simp [updateKeys]
  | cons k ks ih =>
    rw [List.nodup_cons] at hnd
    rw [updateKeys, List.foldl_cons]
    have step : (if c k then dinsert k (v k) prev else prev) = _ := rfl
    by_cases hx : x = k
    · subst hx
      rw [show (List.foldl (fun d k => if c k then dinsert k (v k) d else d)
          (if c x then dinsert x (v x) prev else prev) ks) =
          updateKeys c v ks (if c x then dinsert x (v x) prev else prev) from rfl]
      rw [ih _ hnd.2]
      have hxks : x ∉ ks := hnd.1
      rw [if_neg (fun hc => hxks hc.1)]
      by_cases hc : c x
      · rw [if_pos hc, if_pos ⟨List.mem_cons_self _ _, hc⟩, lookup_dinsert_self]
      · rw [if_neg hc, if_neg (fun hc' => hc hc'.2)]
    · rw [show (List.foldl (fun d k => if c k then dinsert k (v k) d else d)
          (if c k then dinsert k (v k) prev else prev) ks) =
          updateKeys c v ks (if c k then dinsert k (v k) prev else prev) from rfl]
      rw [ih _ hnd.2]
      by_cases hks : x ∈ ks ∧ c x
      · rw [if_pos hks, if_pos ⟨List.mem_cons_of_mem _ hks.1, hks.2⟩]
      · rw [if_neg hks]
        have hmem : ¬(x ∈ k :: ks ∧ c x) := by
          rintro ⟨h1, h2⟩
          rcases List.mem_cons.mp h1 with h1 | h1
          · exact hx h1
          · exact hks ⟨h1, h2⟩
        rw [if_neg hmem]
        by_cases hc : c k
        · rw [if_pos hc, lookup_dinsert_ne _ _ _ _ hx]
        · rw [if_neg hc]

theorem mem_updateKeys {K V : Type} [DecidableEq K] (c : K → Bool) (v : K → V)
    (keys : List K) (prev : List (K × V)) (e : K × V)
    (h : e ∈ updateKeys c v keys prev) :
    e ∈ prev ∨ (e.1 ∈ keys ∧ c e.1 ∧ e.2 = v e.1) := by
  induction keys generalizing prev with
  | nil => exact Or.inl h
  | cons k ks ih =>
    rw [updateKeys, List.foldl_cons] at h
    rw [show (List.foldl (fun d k => if c k then dinsert k (v k) d else d)
        (if c k then dinsert k (v k) prev else prev) ks) =
        updateKeys c v ks (if c k then dinsert k (v k) prev else prev) from rfl] at h
    rcases ih _ h with h' | h'
    · by_cases hc : c k
      · rw [if_pos hc] at h'
        rcases mem_dinsert _ _ _ _ h' with h'' | h''
        · subst h''
          exact Or.inr ⟨List.mem_cons_self _ _, hc, rfl⟩
        · exact Or.inl h''
      · rw [if_neg hc] at h'
        exact Or.inl h'
    · exact Or.inr ⟨List.mem_cons_of_mem _ h'.1, h'.2.1, h'.2.2⟩

/-! ## First-occurrence deduplication lemmas -/

theorem mem_firstDedupAux {α : Type} [DecidableEq α] (x : α) (l : List α) :
    ∀ seen, x ∈ firstDedupAux seen l ↔ (x ∈ l ∧ x ∉ seen) := by
  induction l with
  | nil => simp [firstDedupAux]
  | cons a rest ih =>
    intro seen
    by_cases h : a ∈ seen
    · rw [firstDedupAux, if_pos h, ih]
      simp only [List.mem_cons]
      constructor
      · rintro ⟨h1, h2⟩
        exact ⟨Or.inr h1, h2⟩
      · rintro ⟨h1 | h1, h2⟩
        · subst h1
          exact absurd h h2
        · exact ⟨h1, h2⟩
    · rw [firstDedupAux, if_neg h]
      simp only [List.mem_cons, ih, List.mem_cons]
      by_cases hxa : x = a
      · subst hxa
        simp [h]
      · simp [hxa]

theorem mem_firstDedup {α : Type} [DecidableEq α] (x : α) (l : List α) :
    x ∈ firstDedup l ↔ x ∈ l := by
  rw [firstDedup, mem_firstDedupAux]
  simp

theorem nodup_firstDedupAux {α : Type} [DecidableEq α] (l : List α) :
    ∀ seen, (firstDedupAux seen l).Nodup := by
  induction l with
  | nil =>
    intro seen
    simp [firstDedupAux]
  | cons a rest ih =>
    intro seen
    by_cases h : a ∈ seen
    · rw [firstDedupAux, if_pos h]
      exact ih seen
    · rw [firstDedupAux, if_neg h, List.nodup_cons]
      refine ⟨?_, ih _⟩
      intro hmem
      rw [mem_firstDedupAux] at hmem
      exact hmem.2 (List.mem_cons_self _ _)

theorem nodup_firstDedup {α : Type} [DecidableEq α] (l : List α) :
    (firstDedup l).Nodup :=
  nodup_firstDedupAux l []

/-! ## Deduplication and ranking lemmas -/

/-- Every survivor of `_deduplicate_suggestions` came from the input list,
fails to find a shopping-list item under its normalized name, and its
normalized name is not among the already-seen ones. -/
theorem mem_dedupSuggs (sl : ShoppingList) (l : List Suggestion)
    (seen : List String) (s : Suggestion) (h : s ∈ dedupSuggs sl l seen) :
    s ∈ l ∧ find_item sl (pyNorm s.name) = none ∧ pyNorm s.name ∉ seen := by
  induction l generalizing seen with
  | nil => simp [dedupSuggs] at h
  | cons t rest ih =>
    rw [dedupSuggs] at h
    by_cases h1 : pyNorm t.name ∈ seen
    · rw [if_pos h1] at h
      obtain ⟨hm, hf, hs⟩ := ih seen h
      exact ⟨List.mem_cons_of_mem _ hm, hf, hs⟩
    · rw [if_neg h1] at h
      by_cases h2 : (find_item sl (pyNorm t.name)).isSome
      · rw [if_pos h2] at h
        obtain ⟨hm, hf, hs⟩ := ih seen h
        exact ⟨List.mem_cons_of_mem _ hm, hf, hs⟩
      · rw [if_neg h2] at h
        rcases List.mem_cons.mp h with rfl | h
        · refine ⟨List.mem_cons_self _ _, ?_, h1⟩
          exact Option.not_isSome_iff_eq_none.mp h2
        · obtain ⟨hm, hf, hs⟩ := ih _ h
          refine ⟨List.mem_cons_of_mem _ hm, hf, ?_⟩
          intro hmem
          exact hs (List.mem_cons_of_mem _ hmem)

/-- The normalized names of the deduplicated output are distinct and disjoint
from the seen set. -/
theorem nodup_dedupSuggs (sl : ShoppingList) (l : List Suggestion) :
    ∀ seen, ((dedupSuggs sl l seen).map (fun s => pyNorm s.name)).Nodup := by
  induction l with
  | nil =>
    intro seen
    simp [dedupSuggs]
  | cons t rest ih =>
    intro seen
    rw [dedupSuggs]
    by_cases h1 : pyNorm t.name ∈ seen
    · rw [if_pos h1]
      exact ih seen
    · rw [if_neg h1]
      by_cases h2 : (find_item sl (pyNorm t.name)).isSome
      · rw [if_pos h2]
        exact ih seen
      · rw [if_neg h2]
        rw [List.map_cons, List.nodup_cons]
        refine ⟨?_, ih _⟩
        intro hmem
        rw [List.mem_map] at hmem
        obtain ⟨s, hs, heq⟩ := hmem
        have := (mem_dedupSuggs sl rest _ s hs).2.2
        rw [heq] at this
        exact this (List.mem_cons_self _ _)

theorem perm_insertByConf (s : Suggestion) (l : List Suggestion) :
    List.Perm (insertByConf s l) (s :: l) := by
  induction l with
  | nil => rfl
  | cons t rest ih =>
    rw [insertByConf]
    by_cases h : t.confidence ≤ s.confidence
    · rw [if_pos h]
    · rw [if_neg h]
      exact List.Perm.trans (List.Perm.cons t ih) (List.Perm.swap s t rest)

theorem perm_sortByConf (l : List Suggestion) : List.Perm (sortByConf l) l := by
  induction l with
  | nil => rfl
  | cons t rest ih =>
    rw [sortByConf, List.foldr_cons]
    exact List.Perm.trans (perm_insertByConf t _) (List.Perm.cons t ih)

/-- Membership in the final output of the pipeline implies membership in the
deduplicated list. -/
theorem mem_of_mem_pipeline (sl : ShoppingList) (all : List Suggestion)
    (s : Suggestion) (h : s ∈ (sortByConf (dedupSuggs sl all [])).take 15) :
    s ∈ dedupSuggs sl all [] := by
  have h1 : s ∈ sortByConf (dedupSuggs sl all []) :=
    (List.take_sublist 15 _).subset h
  exact (perm_sortByConf _).subset h1

/-! ## Generator lemmas -/

theorem min_conf_bounds (cap x k : ℚ) (hcap0 : 0 ≤ cap) (hcap1 : cap ≤ 1)
    (hx : 0 < x) (hk : 0 < k) : 0 ≤ min cap (x * k) ∧ min cap (x * k) ≤ 1 :=
  ⟨le_min hcap0 (mul_pos hx hk).le, le_trans (min_le_left _ _) hcap1⟩

/-- Every pattern suggestion carries the `smart_pattern` tag, a confidence in
`[0, 1]`, and names the last history item recorded under some pattern key. -/
theorem patternSuggs_spec (st : EngineState) (sl : ShoppingList) (hist : List GItem)
    (s : Suggestion) (h : s ∈ patternSuggs st sl hist) :
    s.rule_type = "smart_pattern" ∧ (0 ≤ s.confidence ∧ s.confidence ≤ 1) ∧
      ∃ e ∈ st.purchase_patterns, pyLower s.name = e.1 := by
  rw [patternSuggs, List.mem_filterMap] at h
  obtain ⟨e, he, hf⟩ := h
  by_cases h1 : (find_item sl e.1).isSome
  · rw [if_pos h1] at hf
    exact absurd hf (by simp)
  rw [if_neg h1] at hf
  by_cases h2 : (7/10 : ℚ) < e.2.next_purchase_probability
  · rw [if_pos h2] at hf
    cases hlast : (hist.filter (fun it => pyLower it.name == e.1)).getLast? with
    | none =>
      rw [hlast] at hf
      exact absurd hf (by simp)
    | some r =>
      rw [hlast] at hf
      obtain rfl : _ = s := Option.some_injective _ hf
      have hr : r ∈ hist.filter (fun it => pyLower it.name == e.1) :=
        List.mem_of_mem_getLast? hlast
      have hrn : pyLower r.name = e.1 := by
        have := (List.mem_filter.mp hr).2
        exact beq_iff_eq.mp this
      refine ⟨rfl, ?_, e, he, hrn⟩
      exact min_conf_bounds _ _ _ (by norm_num) (by norm_num)
        (lt_trans (by norm_num) h2) (by norm_num)
  · rw [if_neg h2] at hf
    exact absurd hf (by simp)

/-- Every association suggestion carries the `smart_association` tag and a
confidence in `[0, 1]`. -/
theorem assocSuggs_spec (st : EngineState) (sl : ShoppingList)
    (s : Suggestion) (h : s ∈ assocSuggs st sl) :
    s.rule_type = "smart_association" ∧ (0 ≤ s.confidence ∧ s.confidence ≤ 1) := by
  rw [assocSuggs, List.mem_flatMap] at h
  obtain ⟨it, hit, hmem⟩ := h
  cases hl : List.lookup (pyLower it.name) st.item_associations with
  | none =>
    rw [hl] at hmem
    exact absurd hmem (by simp)
  | some inner =>
    rw [hl] at hmem
    rw [List.mem_filterMap] at hmem
    obtain ⟨p, hp, hf⟩ := hmem
    by_cases h1 : (find_item sl p.1).isSome
    · rw [if_pos h1] at hf
      exact absurd hf (by simp)
    rw [if_neg h1] at hf
    by_cases h2 : (2/5 : ℚ) < p.2.confidence * p.2.lift
    · rw [if_pos h2] at hf
      obtain rfl : _ = s := Option.some_injective _ hf
      exact ⟨rfl, min_conf_bounds _ _ _ (by norm_num) (by norm_num)
        (lt_trans (by norm_num) h2) (by norm_num)⟩
    · rw [if_neg h2] at hf
      exact absurd hf (by simp)

/-- Every seasonal suggestion carries the `smart_seasonal` tag and a
confidence in `[0, 1]`. -/
theorem seasonalSuggs_spec (st : EngineState) (sl : ShoppingList) (month : Nat)
    (s : Suggestion) (h : s ∈ seasonalSuggs st sl month) :
    s.rule_type = "smart_seasonal" ∧ (0 ≤ s.confidence ∧ s.confidence ≤ 1) := by
  rw [seasonalSuggs] at h
  cases hl : List.lookup month st.seasonal_patterns with
  | none =>
    rw [hl] at h
    exact absurd h (by simp)
  | some inner =>
    rw [hl] at h
    rw [List.mem_filterMap] at h
    obtain ⟨p, hp, hf⟩ := h
    by_cases h1 : (find_item sl p.1).isSome
    · rw [if_pos h1] at hf
      exact absurd hf (by simp)
    rw [if_neg h1] at hf
    by_cases h2 : (1/5 : ℚ) < p.2
    · rw [if_pos h2] at hf
      obtain rfl : _ = s := Option.some_injective _ hf
      exact ⟨rfl, min_conf_bounds _ _ _ (by norm_num) (by norm_num)
        (lt_trans (by norm_num) h2) (by norm_num)⟩
    · rw [if_neg h2] at hf
      exact absurd hf (by simp)

/-- Every category suggestion carries the `smart_category` tag and a
confidence in `[0, 1]`. -/
theorem categorySuggs_spec (st : EngineState) (sl : ShoppingList)
    (s : Suggestion) (h : s ∈ categorySuggs st sl) :
    s.rule_type = "smart_category" ∧ (0 ≤ s.confidence ∧ s.confidence ≤ 1) := by
  rw [categorySuggs, List.mem_filterMap] at h
  obtain ⟨p, hp, hf⟩ := h
  by_cases h1 : sl.any (fun it => it.category == p.1)
  · rw [if_pos h1] at hf
    exact absurd hf (by simp)
  rw [if_neg h1] at hf
  by_cases h2 : (1/10 : ℚ) < p.2
  · rw [if_pos h2] at hf
    obtain rfl : _ = s := Option.some_injective _ hf
    exact ⟨rfl, min_conf_bounds _ _ _ (by norm_num) (by norm_num)
      (lt_trans (by norm_num) h2) (by norm_num)⟩
  · rw [if_neg h2] at hf
    exact absurd hf (by simp)

/-- Every cluster suggestion carries the `cluster_similarity` tag and the
fixed confidence `0.5`. -/
theorem clusterSuggs_spec (st : EngineState) (sl : ShoppingList)
    (s : Suggestion) (h : s ∈ clusterSuggs st sl) :
    s.rule_type = "cluster_similarity" ∧ (0 ≤ s.confidence ∧ s.confidence ≤ 1) := by
  rw [clusterSuggs, List.mem_flatMap] at h
  obtain ⟨e, he, hmem⟩ := h
  by_cases h1 : sl.any (fun it => (pyLower it.name) ∈ e.2)
  · rw [if_pos h1] at hmem
    rw [List.mem_filterMap] at hmem
    obtain ⟨n, hn, hf⟩ := hmem
    by_cases h2 : (find_item sl n).isSome
    · rw [if_pos h2] at hf
      exact absurd hf (by simp)
    · rw [if_neg h2] at hf
      obtain rfl : _ = s := Option.some_injective _ hf
      exact ⟨rfl, by norm_num, by norm_num⟩
  · rw [if_neg h1] at hmem
    exact absurd hmem (by simp)

/-! ## Claim theorems: output invariants -/

/-- C1 — Exclusion invariant: no suggestion returned by
`generate_smart_suggestions` has a normalized (lowercased, trimmed) name
equal to the normalized name of any item of the input shopping list.  The
hypothesis that stored shopping-list names are fixed points of the
normalization is the construction invariant established by
`GroceryItem.__post_init__` (`mkGroceryItem`). -/
theorem C1_exclusion_invariant (st : EngineState) (sl : ShoppingList)
    (hist : List GItem) (now : PDate) (nc : Option (List (Nat × List String)))
    (hnorm : ∀ it ∈ sl, pyNorm it.name = it.name) :
    ∀ s ∈ generate_smart_suggestions st sl hist now nc,
      ∀ it ∈ sl, pyNorm s.name ≠ pyNorm it.name := by
  intro s hs it hit heq
  simp only [generate_smart_suggestions] at hs
  have hd := mem_of_mem_pipeline sl _ s hs
  have hfind := (mem_dedupSuggs sl _ _ s hd).2.1
  rw [find_item, List.find?_eq_none] at hfind
  apply hfind it hit
  rw [beq_iff_eq]
  have h1 : pyNorm s.name = it.name := by
    rw [heq, hnorm it hit]
  rw [h1, hnorm it hit]

/-- C2 — No-duplicate invariant: the normalized names of the suggestions in
one output of `generate_smart_suggestions` are pairwise distinct. -/
theorem C2_no_duplicate_invariant (st : EngineState) (sl : ShoppingList)
    (hist : List GItem) (now : PDate) (nc : Option (List (Nat × List String))) :
    ((generate_smart_suggestions st sl hist now nc).map
      (fun s => pyNorm s.name)).Nodup := by
  simp only [generate_smart_suggestions]
  rw [List.map_take]
  apply List.Nodup.sublist (List.take_sublist _ _)
  have hd := nodup_dedupSuggs sl (patternSuggs (learn st hist now nc) sl hist
    ++ assocSuggs (learn st hist now nc) sl
    ++ seasonalSuggs (learn st hist now nc) sl now.month
    ++ categorySuggs (learn st hist now nc) sl
    ++ clusterSuggs (learn st hist now nc) sl) []
  exact ((perm_sortByConf _).map _).nodup_iff.mpr hd

/-- C3 — Confidence bounds: every suggestion returned by
`generate_smart_suggestions` has a confidence in `[0, 1]`, for every engine
state (in particular whatever lift values the association miner produced). -/
theorem C3_confidence_bounds (st : EngineState) (sl : ShoppingList)
    (hist : List GItem) (now : PDate) (nc : Option (List (Nat × List String))) :
    ∀ s ∈ generate_smart_suggestions st sl hist now nc,
      0 ≤ s.confidence ∧ s.confidence ≤ 1 := by
  intro s hs
  simp only [generate_smart_suggestions] at hs
  have hd := mem_of_mem_pipeline sl _ s hs
  have hmem := (mem_dedupSuggs sl _ [] s hd).1
  simp only [List.mem_append] at hmem
  rcases hmem with (((h | h) | h) | h) | h
  · exact (patternSuggs_spec _ _ _ _ h).2.1
  · exact (assocSuggs_spec _ _ _ h).2
  · exact (seasonalSuggs_spec _ _ _ _ h).2
  · exact (categorySuggs_spec _ _ _ h).2
  · exact (clusterSuggs_spec _ _ _ h).2

/-! ## Learner lookup lemmas -/

theorem nodup_namesOf (hist : List GItem) : (namesOf hist).Nodup :=
  nodup_firstDedup _

theorem nodup_monthsOf (hist : List GItem) : (monthsOf hist).Nodup :=
  nodup_firstDedup _

/-- Lookup in the pattern dictionary after a learning pass: items of the
snapshot with at least two purchases are bound to the freshly computed
pattern, everything else falls through to the prior dictionary. -/
theorem lookup_learnPatterns (prev : List (String × PatternStats))
    (hist : List GItem) (now : PDate) (n : String) :
    List.lookup n (learnPatterns prev hist now) =
      if n ∈ namesOf hist ∧ 1 < (datesOf hist n).length
      then some (mkPattern (datesOf hist n) now.day)
      else List.lookup n prev := by
  rw [learnPatterns, lookup_updateKeys _ _ _ _ _ (nodup_namesOf hist)]
  simp only [decide_eq_true_eq]

/-- Lookup in the association dictionary after a learning pass. -/
theorem lookup_learnAssociations (prev : List (String × List (String × AssocStats)))
    (bs : List (List String)) (a : String) :
    List.lookup a (learnAssociations prev bs) =
      if a ∈ firstDedup bs.flatten ∧ (hasPairPartner bs a ∧ 2 ≤ itemCountOf bs a)
      then some (innerAssoc bs a)
      else List.lookup a prev := by
  rw [learnAssociations, lookup_updateKeys _ _ _ _ _ (nodup_firstDedup _)]
  simp only [Bool.and_eq_true, decide_eq_true_eq]

/-- Lookup in the seasonal dictionary after a learning pass. -/
theorem lookup_learnSeasonal (prev : List (Nat × List (String × ℚ)))
    (hist : List GItem) (m : Nat) :
    List.lookup m (learnSeasonal prev hist) =
      if m ∈ monthsOf hist ∧ 0 < (monthItems hist m).length
      then some (innerSeasonal hist m)
      else List.lookup m prev := by
  rw [learnSeasonal, lookup_updateKeys _ _ _ _ _ (nodup_monthsOf hist)]
  simp only [decide_eq_true_eq]

/-- Lookup in an association list built by guarded `filterMap` over distinct
keys. -/
theorem lookup_filterMap_guard {K V : Type} [DecidableEq K] [BEq K] [LawfulBEq K]
    (keys : List K) (p : K → Prop) [DecidablePred p] (v : K → V) (x : K)
    (hnd : keys.Nodup) :
    List.lookup x (keys.filterMap (fun k => if p k then some (k, v k) else none)) =
      if x ∈ keys ∧ p x then some (v x) else none := by
  induction keys with
  | nil => simp [List.lookup]
  | cons k ks ih =>
    rw [List.nodup_cons] at hnd
    rw [List.filterMap_cons]
    by_cases hp : p k
    · rw [if_pos hp]
      by_cases hx : x = k
      · subst hx
        rw [List.lookup, beq_self_eq_true]
        rw [if_pos ⟨List.mem_cons_self _ _, hp⟩]
      · rw [List.lookup, beq_false_of_ne hx, ih hnd.2]
        by_cases hks : x ∈ ks ∧ p x
        · rw [if_pos hks, if_pos ⟨List.mem_cons_of_mem _ hks.1, hks.2⟩]
        · rw [if_neg hks, if_neg]
          rintro ⟨h1, h2⟩
          rcases List.mem_cons.mp h1 with h1 | h1
          · exact hx h1
          · exact hks ⟨h1, h2⟩
    · rw [if_neg hp, ih hnd.2]
      by_cases hks : x ∈ ks ∧ p x
      · rw [if_pos hks, if_pos ⟨List.mem_cons_of_mem _ hks.1, hks.2⟩]
      · rw [if_neg hks, if_neg]
        rintro ⟨h1, h2⟩
        rcases List.mem_cons.mp h1 with h1 | h1
        · subst h1
          exact hp h2
        · exact hks ⟨h1, h2⟩

/-! ## Counting helper lemmas -/

theorem exists_pos_of_sum_map_pos {α : Type} (l : List α) (f : α → Nat)
    (h : 0 < (l.map f).sum) : ∃ a ∈ l, 0 < f a := by
  induction l with
  | nil => simp at h
  | cons a rest ih =>
    rw [List.map_cons, List.sum_cons] at h
    by_cases ha : 0 < f a
    · exact ⟨a, List.mem_cons_self _ _, ha⟩
    · have : f a = 0 := Nat.eq_zero_of_not_pos ha
      rw [this, Nat.zero_add] at h
      obtain ⟨b, hb, hfb⟩ := ih h
      exact ⟨b, List.mem_cons_of_mem _ hb, hfb⟩

theorem coocPair_pos (x y a b : String) (h : 0 < coocPair x y a b) :
    (a = x ∧ b = y) ∨ (b = x ∧ a = y) := by
  rw [coocPair] at h
  by_cases h1 : a = x ∧ b = y
  · exact Or.inl h1
  · rw [if_neg h1] at h
    by_cases h2 : b = x ∧ a = y
    · exact Or.inr h2
    · rw [if_neg h2] at h
      simp at h

theorem coocBasket_pos_mem (x y : String) (l : List String)
    (h : 0 < coocBasket x y l) : y ∈ l := by
  induction l with
  | nil => simp [coocBasket] at h
  | cons a rest ih =>
    rw [coocBasket] at h
    by_cases hs : 0 < (rest.map (fun b => coocPair x y a b)).sum
    · obtain ⟨b, hb, hpb⟩ := exists_pos_of_sum_map_pos _ _ hs
      rcases coocPair_pos x y a b hpb with ⟨_, rfl⟩ | ⟨_, rfl⟩
      · exact List.mem_cons_of_mem _ hb
      · exact List.mem_cons_self _ _
    · have : (rest.map (fun b => coocPair x y a b)).sum = 0 :=
        Nat.eq_zero_of_not_pos hs
      rw [this, Nat.zero_add] at h
      exact List.mem_cons_of_mem _ (ih h)

theorem coocOf_pos_mem (bs : List (List String)) (x y : String)
    (h : 0 < coocOf bs x y) : y ∈ bs.flatten := by
  obtain ⟨basket, hb, hpos⟩ := exists_pos_of_sum_map_pos _ _ h
  exact List.mem_flatten.mpr ⟨basket, hb, coocBasket_pos_mem x y basket hpos⟩

theorem itemCountOf_pos_mem (bs : List (List String)) (x : String)
    (h : 0 < itemCountOf bs x) : x ∈ bs.flatten :=
  List.count_pos_iff.mp h

/-! ## Length helper lemmas -/

theorem length_insertAsc (x : Int) (l : List Int) :
    (insertAsc x l).length = l.length + 1 := by
  induction l with
  | nil => rfl
  | cons y rest ih =>
    rw [insertAsc]
    by_cases h : x ≤ y
    · rw [if_pos h]
      rfl
    · rw [if_neg h, List.length_cons, ih, List.length_cons]

theorem length_sortAsc (l : List Int) : (sortAsc l).length = l.length := by
  induction l with
  | nil => rfl
  | cons x rest ih =>
    rw [sortAsc, List.foldr_cons, length_insertAsc]
    rw [show List.foldr insertAsc [] rest = sortAsc rest from rfl, ih, List.length_cons]

theorem length_gapsOf (l : List Int) : (gapsOf l).length = l.length - 1 := by
  induction l with
  | nil => rfl
  | cons a rest ih =>
    cases rest with
    | nil => rfl
    | cons b rest' =>
      rw [gapsOf, List.length_cons, ih]
      simp [Nat.succ_sub_one]

theorem mem_namesOf_of_datesOf (hist : List GItem) (n : String)
    (h : 0 < (datesOf hist n).length) : n ∈ namesOf hist := by
  rw [namesOf, mem_firstDedup]
  rw [datesOf, List.length_map] at h
  obtain ⟨it, hit⟩ := List.exists_mem_of_length_pos h
  have hm := List.mem_filter.mp hit
  rw [List.mem_map]
  exact ⟨it, hm.1, beq_iff_eq.mp hm.2⟩

/-! ## Claim theorems: learner functional correctness -/

/-- C4 — Repurchase math: for every item with at least two recorded
purchases whose mean gap is nonzero, the learned pattern stores the mean of
the day gaps of the ascending-sorted purchase days as `avg_interval` and
`clamp(days_since_last / avg_interval, 0, 1)` as the next-purchase
probability (`days_since_last` being `now` minus the last purchase day).
The zero-mean edge case is the subject of C9. -/
theorem C4_repurchase_math (prev : List (String × PatternStats)) (hist : List GItem)
    (now : PDate) (n : String)
    (h2 : 2 ≤ (datesOf hist n).length)
    (havg : meanQ (gapsOf (sortAsc (datesOf hist n))) ≠ 0) :
    List.lookup n (learnPatterns prev hist now) =
      some ⟨meanQ (gapsOf (sortAsc (datesOf hist n))),
        max 0 (min 1 (((now.day - (sortAsc (datesOf hist n)).getLastD 0 : Int) : ℚ) /
          meanQ (gapsOf (sortAsc (datesOf hist n))))),
        (datesOf hist n).length,
        (sortAsc (datesOf hist n)).getLastD 0⟩ := by
  rw [lookup_learnPatterns]
  rw [if_pos ⟨mem_namesOf_of_datesOf _ _ (by omega), by omega⟩]
  simp only [mkPattern, nextProb, if_neg havg]

/-- C5 — Association math: every retained association rule `a → b` stores
the co-occurrence count as its support, `support / occurrences(a)` as its
confidence, and `confidence / (occurrences(b) / total_baskets)` as its
lift. -/
theorem C5_association_math (prev : List (String × List (String × AssocStats)))
    (bs : List (List String)) (a b : String)
    (hpp : hasPairPartner bs a = true)
    (hca : 2 ≤ itemCountOf bs a)
    (hcb : 2 ≤ coocOf bs a b)
    (hconf : (3/10 : ℚ) < (coocOf bs a b : ℚ) / (itemCountOf bs a : ℚ)) :
    ∃ inner, List.lookup a (learnAssociations prev bs) = some inner ∧
      List.lookup b inner =
        some ⟨(coocOf bs a b : ℚ) / (itemCountOf bs a : ℚ), coocOf bs a b,
          ((coocOf bs a b : ℚ) / (itemCountOf bs a : ℚ)) /
            ((itemCountOf bs b : ℚ) / (bs.length : ℚ))⟩ := by
  have ha : a ∈ firstDedup bs.flatten :=
    (mem_firstDedup _ _).mpr (itemCountOf_pos_mem bs a (by omega))
  have hb : b ∈ firstDedup bs.flatten :=
    (mem_firstDedup _ _).mpr (coocOf_pos_mem bs a b (by omega))
  refine ⟨innerAssoc bs a, ?_, ?_⟩
  · rw [lookup_learnAssociations]
    rw [if_pos ⟨ha, hpp, hca⟩]
  · rw [innerAssoc, lookup_filterMap_guard _ _ _ _ (nodup_firstDedup _)]
    rw [if_pos ⟨hb, hcb, hconf⟩]

/-- C9 — Zero-average-interval input: for an item purchased twice on the
same day, the pattern computation reaches the probability assignment with a
zero `avg_interval` divisor (there is no zero guard in the code); numpy's
float semantics turns the division into `inf`/`nan`, which the clamp maps to
probability `1`.  The stored pattern records the zero average and that
probability. -/
theorem C9_zero_interval_division :
    List.lookup "milk"
        (learnPatterns [] [⟨"milk", "dairy", ⟨5, 1⟩⟩, ⟨"milk", "dairy", ⟨5, 1⟩⟩] ⟨9, 1⟩) =
      some ⟨0, 1, 2, 5⟩ := by
  rw [lookup_learnPatterns]
  rw [if_pos ⟨by decide, by decide⟩]
  have hd : datesOf [⟨"milk", "dairy", ⟨5, 1⟩⟩, ⟨"milk", "dairy", ⟨5, 1⟩⟩] "milk" = [5, 5] := by
    decide
  rw [hd]
  simp only [mkPattern]
  norm_num [sortAsc, insertAsc, gapsOf, meanQ, nextProb]

/-! ## Claim theorems: single-purchase rule, recomputation, stddev -/

/-- C6 — Single-purchase rule: for an item with exactly one recorded
purchase, `should_suggest_item` answers `True` exactly when at least 14 days
have passed since that purchase. -/
theorem C6_single_purchase_rule (purchases : List GItem) (q : String) (now : PDate)
    (it : GItem) (hone : purchasesOf purchases q = [it]) :
    (should_suggest_item purchases q now 7 = true) ↔ 14 ≤ now.day - it.pdate.day := by
  rw [should_suggest_item, hone]
  simp [sortAsc, insertAsc]

/-- C7 (amended) — Per-key snapshot recomputation: for every key derived from
the history snapshot (a paired item with two occurrences, a month present in
the snapshot, an item with two purchases), the learned association, seasonal
and repurchase entries equal the value computed from the snapshot alone, for
every prior engine state.  Keys absent from the snapshot are *not* cleared,
which is why the claim as stated fails (see the counterexample). -/
theorem C7_snapshot_recompute (st : EngineState) (hist : List GItem) (now : PDate)
    (a : String) (m : Nat) (n : String)
    (hpp : hasPairPartner (basketsOf hist) a = true)
    (hca : 2 ≤ itemCountOf (basketsOf hist) a)
    (hm : m ∈ monthsOf hist)
    (hmi : 0 < (monthItems hist m).length)
    (hn : 1 < (datesOf hist n).length) :
    List.lookup a (learnAssociations st.item_associations (basketsOf hist)) =
        some (innerAssoc (basketsOf hist) a) ∧
      List.lookup m (learnSeasonal st.seasonal_patterns hist) =
        some (innerSeasonal hist m) ∧
      List.lookup n (learnPatterns st.purchase_patterns hist now) =
        some (mkPattern (datesOf hist n) now.day) := by
  refine ⟨?_, ?_, ?_⟩
  · rw [lookup_learnAssociations,
      if_pos ⟨(mem_firstDedup _ _).mpr (itemCountOf_pos_mem _ _ (by omega)), hpp, hca⟩]
  · rw [lookup_learnSeasonal, if_pos ⟨hm, hmi⟩]
  · rw [lookup_learnPatterns, if_pos ⟨mem_namesOf_of_datesOf _ _ (by omega), hn⟩]

/-- The inner association dictionary of a stale engine state used in the C7
counterexample. -/
def c7staleInner : List (String × AssocStats) := [("sugar", ⟨1, 2, 1⟩)]

/-- A history snapshot that contains milk and bread but no tea. -/
def c7hist : List GItem :=
  [⟨"milk", "dairy", ⟨0, 1⟩⟩, ⟨"bread", "grains", ⟨0, 1⟩⟩,
   ⟨"milk", "dairy", ⟨10, 1⟩⟩, ⟨"bread", "grains", ⟨10, 1⟩⟩]

/-- An engine state with no learned data. -/
def c7fresh : EngineState := ⟨[], [], [], [], []⟩

/-- An engine state carrying a stale association entry for tea (e.g. learned
on an earlier pass or loaded from the persisted model files). -/
def c7stale : EngineState := ⟨[], [("tea", c7staleInner)], [], [], []⟩

/-- C7 (counterexample) — Learning from the same snapshot starting from two
different prior states yields different learned states: the stale `tea`
association of `c7stale` survives the pass over a tea-free history, while a
fresh engine ends the same pass without it. -/
theorem C7_counterexample :
    List.lookup "tea" (learnAssociations c7stale.item_associations (basketsOf c7hist)) =
        some c7staleInner ∧
      List.lookup "tea" (learnAssociations c7fresh.item_associations (basketsOf c7hist)) =
        none ∧
      learn c7stale c7hist ⟨20, 1⟩ none ≠ learn c7fresh c7hist ⟨20, 1⟩ none := by
  have h1 : List.lookup "tea"
      (learnAssociations c7stale.item_associations (basketsOf c7hist)) =
      some c7staleInner := by
    rw [lookup_learnAssociations, if_neg (by decide)]
    rfl
  have h2 : List.lookup "tea"
      (learnAssociations c7fresh.item_associations (basketsOf c7hist)) = none := by
    rw [lookup_learnAssociations, if_neg (by decide)]
    rfl
  refine ⟨h1, h2, ?_⟩
  intro h
  have hproj := congrArg EngineState.item_associations h
  have hs : (learn c7stale c7hist ⟨20, 1⟩ none).item_associations =
      learnAssociations c7stale.item_associations (basketsOf c7hist) := by
    rw [learn, if_neg (by decide)]
  have hf : (learn c7fresh c7hist ⟨20, 1⟩ none).item_associations =
      learnAssociations c7fresh.item_associations (basketsOf c7hist) := by
    rw [learn, if_neg (by decide)]
  rw [hs, hf] at hproj
  rw [hproj, h2] at h1
  exact Option.noConfusion h1

/-- C8 (amended) — Stored interval spread: for an item with at least two
purchases, the stored `std_interval` is the population standard deviation of
the day gaps when there is more than one gap, and the fallback
`avg_interval * 0.2` when there is exactly one gap (i.e. exactly two
purchases) — not `0` as the claim states. -/
theorem C8_stddev_amended (hist : List GItem) (n : String)
    (h2 : 2 ≤ (datesOf hist n).length) :
    stdIntervalOf hist n =
      some (if 1 < (gapsOf (sortAsc (datesOf hist n))).length
        then Real.sqrt (popVar (gapsOf (sortAsc (datesOf hist n))))
        else ((meanQ (gapsOf (sortAsc (datesOf hist n)))) : ℝ) * (2/10)) := by
  simp only [stdIntervalOf]
  rw [if_pos (by rw [length_sortAsc]; omega)]

/-- The two-purchase history (days 0 and 10) used in the C8 counterexample. -/
def c8hist : List GItem :=
  [⟨"milk", "dairy", ⟨0, 1⟩⟩, ⟨"milk", "dairy", ⟨10, 1⟩⟩]

/-- C8 (counterexample) — An item with exactly two recorded purchases, ten
days apart: the stored spread is `avg * 0.2 = 2`, not `0`. -/
theorem C8_counterexample :
    stdIntervalOf c8hist "milk" = some 2 ∧ (2 : ℝ) ≠ 0 := by
  constructor
  · have hd : datesOf c8hist "milk" = [0, 10] := by decide
    simp only [stdIntervalOf, hd]
    have hs : sortAsc [(0 : Int), 10] = [0, 10] := by decide
    rw [hs]
    rw [if_pos (by norm_num)]
    have hg : gapsOf [(0 : Int), 10] = [10] := by decide
    rw [hg]
    rw [if_neg (by norm_num)]
    have hm : meanQ [(10 : Int)] = 10 := by norm_num [meanQ]
    rw [hm]
    norm_num
  · norm_num

/-- C10 (amended) — Pattern suggestions name repeat purchases, provided the
engine's pattern store holds no stale entries from earlier passes (e.g. on a
freshly constructed engine): every suggestion tagged `smart_pattern` in the
output of `generate_smart_suggestions` names an item with at least two
purchases recorded in the supplied history. -/
theorem C10_pattern_suggestions_need_two_purchases (st : EngineState)
    (sl : ShoppingList) (hist : List GItem) (now : PDate)
    (nc : Option (List (Nat × List String)))
    (hfresh : st.purchase_patterns = []) :
    ∀ s ∈ generate_smart_suggestions st sl hist now nc,
      s.rule_type = "smart_pattern" →
        2 ≤ (hist.filter (fun it => pyLower it.name == pyLower s.name)).length := by
  intro s hs htype
  simp only [generate_smart_suggestions] at hs
  have hd := mem_of_mem_pipeline sl _ s hs
  have hmem := (mem_dedupSuggs sl _ [] s hd).1
  simp only [List.mem_append] at hmem
  rcases hmem with (((h | h) | h) | h) | h
  · obtain ⟨-, -, e, he, hname⟩ := patternSuggs_spec _ _ _ _ h
    by_cases hh : hist.isEmpty = true
    · rw [learn, if_pos hh, hfresh] at he
      exact absurd he (List.not_mem_nil e)
    · have he' : e ∈ learnPatterns st.purchase_patterns hist now := by
        rw [learn, if_neg hh] at he
        exact he
      rw [hfresh] at he'
      rcases mem_updateKeys _ _ _ _ _ he' with h0 | ⟨hk, hc, -⟩
      · exact absurd h0 (List.not_mem_nil e)
      · rw [decide_eq_true_eq, datesOf, List.length_map] at hc
        rw [hname]
        omega
  · obtain ⟨ht, -⟩ := assocSuggs_spec _ _ _ h
    exact absurd (ht.symm.trans htype) (by decide)
  · obtain ⟨ht, -⟩ := seasonalSuggs_spec _ _ _ _ h
    exact absurd (ht.symm.trans htype) (by decide)
  · obtain ⟨ht, -⟩ := categorySuggs_spec _ _ _ h
    exact absurd (ht.symm.trans htype) (by decide)
  · obtain ⟨ht, -⟩ := clusterSuggs_spec _ _ _ h
    exact absurd (ht.symm.trans htype) (by decide)

/-! ## A concrete end-to-end run of the suggestion pipeline

An engine carrying a stale pattern entry for milk (e.g. learned on an
earlier pass over a larger history) is asked for suggestions against an
empty shopping list and a one-purchase history. -/

/-- A stale pattern entry: milk bought every 10 days, probability `0.8`,
learned from five purchases of an earlier snapshot. -/
def demoPattern : PatternStats := ⟨10, 4/5, 5, 0⟩

/-- The engine state before the call: only the stale milk pattern. -/
def demoSt : EngineState := ⟨[("milk", demoPattern)], [], [], [], []⟩

/-- The current history snapshot: a single milk purchase on day 0. -/
def demoHist : List GItem := [⟨"milk", "dairy", ⟨0, 1⟩⟩]

/-- The call time: day 4, January. -/
def demoNow : PDate := ⟨4, 1⟩

/-- The pattern suggestion produced by the stale entry. -/
def demoSugPat : Suggestion := ⟨"milk", "dairy", 18/25, "smart_pattern"⟩

/-- The seasonal suggestion for milk (removed again by deduplication). -/
def demoSugSea : Suggestion := ⟨"Milk", "dairy", 7/10, "smart_seasonal"⟩

/-- The category suggestion for dairy. -/
def demoSugCat : Suggestion := ⟨"Popular dairy item", "dairy", 3/5, "smart_category"⟩

/-- The engine state after the learning pass of the call. -/
def demoSt1 : EngineState :=
  ⟨[("milk", demoPattern)], [], [(1, [("milk", 1)])], [("dairy", 1)], []⟩

theorem demo_learn_eval : learn demoSt demoHist demoNow none = demoSt1 := by
  have hpp : learnPatterns [("milk", demoPattern)] demoHist demoNow =
      [("milk", demoPattern)] := by
    have hk : namesOf demoHist = ["milk"] := by decide
    rw [learnPatterns, hk, updateKeys, List.foldl_cons, if_neg (by decide),
      List.foldl_nil]
  have hassoc : learnAssociations [] (basketsOf demoHist) = [] := by
    have hb : basketsOf demoHist = [["milk"]] := by decide
    have hk : firstDedup ([["milk"]] : List (List String)).flatten = ["milk"] := by decide
    rw [learnAssociations, hb, hk, updateKeys, List.foldl_cons, if_neg (by decide),
      List.foldl_nil]
  have hin : innerSeasonal demoHist 1 = [("milk", 1)] := by
    have hfd : firstDedup (monthItems demoHist 1) = ["milk"] := by decide
    have hc : (monthItems demoHist 1).count "milk" = 1 := by decide
    have hl : (monthItems demoHist 1).length = 1 := by decide
    rw [innerSeasonal, hfd]
    simp only [List.filterMap_cons, List.filterMap_nil, hc, hl]
    norm_num
  have hseas : learnSeasonal [] demoHist = [(1, [("milk", 1)])] := by
    have hk : monthsOf demoHist = [1] := by decide
    rw [learnSeasonal, hk, updateKeys, List.foldl_cons, if_pos (by decide),
      List.foldl_nil, hin]
    rfl
  have htw : totalWeight demoHist demoNow = 25/26 := by
    norm_num [totalWeight, recencyWeight, demoHist, demoNow]
  have hcw : catWeight demoHist demoNow "dairy" = 25/26 := by
    norm_num [catWeight, recencyWeight, demoHist, demoNow]
  have hcat : learnCategoryPrefs [] demoHist demoNow = [("dairy", 1)] := by
    have hcs : catsOf demoHist = ["dairy"] := by decide
    rw [learnCategoryPrefs, if_pos (by rw [htw]; norm_num), hcs, updateKeys,
      List.foldl_cons, if_pos rfl, List.foldl_nil, hcw, htw]
    simp only [dinsert]
    norm_num
  rw [learn, if_neg (by decide)]
  simp only [demoSt]
  rw [hpp, hassoc, hseas, hcat, if_pos (by decide)]
  rfl

theorem demo_patternSuggs_eval : patternSuggs demoSt1 [] demoHist = [demoSugPat] := by
  have hfil : demoHist.filter (fun it => pyLower it.name == "milk") = demoHist := by
    decide
  have hfi : find_item [] "milk" = none := rfl
  have hpl : pyLower "milk" = "milk" := by decide
  simp only [patternSuggs, demoSt1, List.filterMap_cons, List.filterMap_nil, hfi,
    hfil, demoPattern, demoHist, hpl]
  norm_num [demoSugPat, hpl]

theorem demo_seasonalSuggs_eval : seasonalSuggs demoSt1 [] 1 = [demoSugSea] := by
  have ht : pyTitle "milk" = "Milk" := by decide
  have hg : guessCategory [("dairy", (1 : ℚ))] "milk" = "dairy" := by decide
  have hfi : find_item [] "milk" = none := rfl
  simp only [seasonalSuggs, demoSt1, List.lookup, beq_self_eq_true, hfi,
    List.filterMap_cons, List.filterMap_nil, ht, hg]
  norm_num [demoSugSea]

theorem demo_categorySuggs_eval : categorySuggs demoSt1 [] = [demoSugCat] := by
  have hn : ("Popular " ++ "dairy" ++ " item" : String) = "Popular dairy item" := by
    decide
  simp only [categorySuggs, demoSt1, List.filterMap_cons, List.filterMap_nil,
    List.any_nil, hn]
  norm_num [demoSugCat]

/-- The full pipeline run: the stale milk pattern yields a `smart_pattern`
suggestion for milk (one purchase in the supplied history!), the seasonal
duplicate of milk is removed, and the category suggestion survives. -/
theorem demo_generate_eval :
    generate_smart_suggestions demoSt [] demoHist demoNow none =
      [demoSugPat, demoSugCat] := by
  have hmon : demoNow.month = 1 := rfl
  have hd : dedupSuggs [] [demoSugPat, demoSugSea, demoSugCat] [] =
      [demoSugPat, demoSugCat] := by rfl
  have hsort : sortByConf [demoSugPat, demoSugCat] = [demoSugPat, demoSugCat] := by
    rw [sortByConf, List.foldr_cons, List.foldr_cons, List.foldr_nil]
    rw [show insertByConf demoSugCat [] = [demoSugCat] from rfl]
    rw [insertByConf, if_pos (by norm_num [demoSugPat, demoSugCat])]
  simp only [generate_smart_suggestions, demo_learn_eval, hmon,
    demo_patternSuggs_eval, demo_seasonalSuggs_eval, demo_categorySuggs_eval]
  rw [show assocSuggs demoSt1 [] = [] from rfl,
    show clusterSuggs demoSt1 [] = [] from rfl]
  simp only [List.append_nil, List.nil_append, List.cons_append, List.singleton_append]
  rw [hd, hsort]
  rfl

/-- C10 (counterexample) — On an engine whose pattern store carries a stale
entry, the output of `generate_smart_suggestions` contains a suggestion
tagged `smart_pattern` naming milk although the supplied history records
exactly one milk purchase. -/
theorem C10_counterexample :
    demoSugPat ∈ generate_smart_suggestions demoSt [] demoHist demoNow none ∧
      demoSugPat.rule_type = "smart_pattern" ∧
      (demoHist.filter (fun it => pyLower it.name == pyLower demoSugPat.name)).length
        = 1 := by
  refine ⟨?_, rfl, by decide⟩
  rw [demo_generate_eval]
  exact List.mem_cons_self _ _

/-! ## Witnesses -/

/-- A shopping list holding one normalized item, for the C1 witness. -/
def c1sl : ShoppingList := [⟨"milk", "dairy"⟩]

theorem C1_witness :
    (∀ it ∈ c1sl, pyNorm it.name = it.name) ∧
      (∀ s ∈ generate_smart_suggestions demoSt c1sl demoHist demoNow none,
        ∀ it ∈ c1sl, pyNorm s.name ≠ pyNorm it.name) :=
  ⟨by decide, C1_exclusion_invariant demoSt c1sl demoHist demoNow none (by decide)⟩

theorem C3_witness :
    demoSugPat ∈ generate_smart_suggestions demoSt [] demoHist demoNow none ∧
      (0 ≤ demoSugPat.confidence ∧ demoSugPat.confidence ≤ 1) := by
  have hm : demoSugPat ∈ generate_smart_suggestions demoSt [] demoHist demoNow none := by
    rw [demo_generate_eval]
    exact List.mem_cons_self _ _
  exact ⟨hm, C3_confidence_bounds demoSt [] demoHist demoNow none demoSugPat hm⟩

/-- Milk bought on days 0, 10 and 20 — the worked example of the spec. -/
def c4hist : List GItem :=
  [⟨"milk", "dairy", ⟨0, 1⟩⟩, ⟨"milk", "dairy", ⟨10, 1⟩⟩, ⟨"milk", "dairy", ⟨20, 1⟩⟩]

theorem C4_witness :
    (2 ≤ (datesOf c4hist "milk").length) ∧
      meanQ (gapsOf (sortAsc (datesOf c4hist "milk"))) ≠ 0 ∧
      List.lookup "milk" (learnPatterns [] c4hist ⟨28, 1⟩) = some ⟨10, 4/5, 3, 20⟩ := by
  have hd : datesOf c4hist "milk" = [0, 10, 20] := by decide
  have hs : sortAsc [(0 : Int), 10, 20] = [0, 10, 20] := by decide
  have hg : gapsOf [(0 : Int), 10, 20] = [10, 10] := by decide
  have hm : meanQ [(10 : Int), 10] = 10 := by norm_num [meanQ]
  have hl : ([(0 : Int), 10, 20]).getLastD 0 = 20 := by decide
  have h2 : 2 ≤ (datesOf c4hist "milk").length := by
    rw [hd]
    norm_num
  have hnz : meanQ (gapsOf (sortAsc (datesOf c4hist "milk"))) ≠ 0 := by
    rw [hd, hs, hg, hm]
    norm_num
  refine ⟨h2, hnz, ?_⟩
  rw [C4_repurchase_math [] c4hist ⟨28, 1⟩ "milk" h2 hnz]
  rw [hd, hs, hg, hm, hl]
  norm_num

/-- Ten baskets: milk in five of them, bread in four, co-occurring in three —
the worked example of the spec. -/
def c5B : List (List String) :=
  [["milk", "bread"], ["milk", "bread"], ["milk", "bread"], ["milk"], ["milk"],
   ["bread"], ["jam"], ["jam"], ["jam"], ["jam"]]

theorem C5_witness :
    (hasPairPartner c5B "milk" = true) ∧ (2 ≤ itemCountOf c5B "milk") ∧
      (2 ≤ coocOf c5B "milk" "bread") ∧
      ((3/10 : ℚ) < (coocOf c5B "milk" "bread" : ℚ) / (itemCountOf c5B "milk" : ℚ)) ∧
      (∃ inner, List.lookup "milk" (learnAssociations [] c5B) = some inner ∧
        List.lookup "bread" inner = some ⟨3/5, 3, 3/2⟩) := by
  have hc : coocOf c5B "milk" "bread" = 3 := by decide
  have hm : itemCountOf c5B "milk" = 5 := by decide
  have hb : itemCountOf c5B "bread" = 4 := by decide
  have hlen : c5B.length = 10 := by decide
  have hconf : (3/10 : ℚ) <
      (coocOf c5B "milk" "bread" : ℚ) / (itemCountOf c5B "milk" : ℚ) := by
    rw [hc, hm]
    norm_num
  refine ⟨by decide, by decide, by decide, hconf, ?_⟩
  obtain ⟨inner, h1, h2⟩ := C5_association_math [] c5B "milk" "bread" (by decide)
    (by decide) (by decide) hconf
  refine ⟨inner, h1, ?_⟩
  rw [h2, hc, hm, hb, hlen]
  norm_num

/-- A single milk purchase on day 0, for the C6 witness. -/
def c6item : GItem := ⟨"milk", "dairy", ⟨0, 1⟩⟩

/-- The one-purchase history of the C6 witness. -/
def c6hist : List GItem := [c6item]

theorem C6_witness :
    (purchasesOf c6hist "milk" = [c6item]) ∧
      should_suggest_item c6hist "milk" ⟨15, 1⟩ 7 = true ∧
      should_suggest_item c6hist "milk" ⟨10, 1⟩ 7 = false := by
  refine ⟨by decide, ?_, ?_⟩
  · exact (C6_single_purchase_rule c6hist "milk" ⟨15, 1⟩ c6item (by decide)).mpr
      (by decide)
  · have h := C6_single_purchase_rule c6hist "milk" ⟨10, 1⟩ c6item (by decide)
    cases hb : should_suggest_item c6hist "milk" ⟨10, 1⟩ 7
    · rfl
    · exact absurd (h.mp hb) (by decide)

theorem C7_witness :
    (hasPairPartner (basketsOf c7hist) "milk" = true) ∧
      (2 ≤ itemCountOf (basketsOf c7hist) "milk") ∧
      (1 ∈ monthsOf c7hist) ∧ (0 < (monthItems c7hist 1).length) ∧
      (1 < (datesOf c7hist "milk").length) ∧
      (List.lookup "milk"
          (learnAssociations c7stale.item_associations (basketsOf c7hist)) =
          some (innerAssoc (basketsOf c7hist) "milk") ∧
        List.lookup 1 (learnSeasonal c7stale.seasonal_patterns c7hist) =
          some (innerSeasonal c7hist 1) ∧
        List.lookup "milk" (learnPatterns c7stale.purchase_patterns c7hist ⟨20, 1⟩) =
          some (mkPattern (datesOf c7hist "milk") 20)) := by
  refine ⟨by decide, by decide, by decide, by decide, by decide, ?_⟩
  exact C7_snapshot_recompute c7stale c7hist ⟨20, 1⟩ "milk" 1 "milk" (by decide)
    (by decide) (by decide) (by decide) (by decide)

theorem C8_witness :
    (2 ≤ (datesOf c8hist "milk").length) ∧
      stdIntervalOf c8hist "milk" =
        some (if 1 < (gapsOf (sortAsc (datesOf c8hist "milk"))).length
          then Real.sqrt (popVar (gapsOf (sortAsc (datesOf c8hist "milk"))))
          else ((meanQ (gapsOf (sortAsc (datesOf c8hist "milk")))) : ℝ) * (2/10)) :=
  ⟨by decide, C8_stddev_amended c8hist "milk" (by decide)⟩

theorem C10_witness :
    (c7fresh.purchase_patterns = []) ∧
      (∀ s ∈ generate_smart_suggestions c7fresh [] demoHist demoNow none,
        s.rule_type = "smart_pattern" →
          2 ≤ (demoHist.filter (fun it => pyLower it.name == pyLower s.name)).length) :=
  ⟨rfl, C10_pattern_suggestions_need_two_purchases c7fresh [] demoHist demoNow none rfl⟩

end GroceryEngine